import Mathlib

/-
Verification of the heuristic code-smell / pattern pre-screening engine of
the VibeCodeDoc repository.

Shallow embedding conventions:
* Python strings are Lean `String`s; per-line processing works on `List Char`
  (a Lean `String` is a structure around `List Char`, so conversions are
  definitional).
* Python floats are modelled as rationals (`ℚ`); every constant appearing in
  the embedded code (0.5, 1.0, 3.0, 10.0, thresholds) is exactly
  representable, and the operations used (+, max, min, /, comparisons) agree
  with exact rational arithmetic on the inputs the theorems touch.  Ratios of
  counters are written with `mkRat` (exact rational division).
* `re.finditer`/`re.search` loops are embedded as dedicated left-to-right
  scanners for the concrete patterns appearing in the source.  Each scanner
  is documented with the pattern it implements; `re.finditer` semantics
  (leftmost match, resume after the end of the previous match) are realised
  with a fuel argument equal to the text length so that all recursions are
  structural and kernel-reducible.
-/

set_option linter.unusedVariables false
set_option maxRecDepth 16000

namespace VibeDoc

/-! ## Basic text primitives -/

/-- ASCII whitespace, as recognized by Python `str.strip`, `str.lstrip` and
the regex class matched by the source's patterns. -/
def isPyWs (c : Char) : Bool :=
  c = ' ' || c = '\t' || c = '\n' || c = '\r' || c = Char.ofNat 11 || c = Char.ofNat 12

/-- Regex word character (ASCII part of Python `\w`). -/
def isWordChar (c : Char) : Bool :=
  c.isAlpha || c.isDigit || c = '_'

/-- The four characters with special meaning to the brace-counting loops,
defined by code point to keep the source free of tricky literals. -/
def dquoteChar : Char := Char.ofNat 34

def squoteChar : Char := Char.ofNat 39

def backtickChar : Char := Char.ofNat 96

def lbraceChar : Char := Char.ofNat 123

def rbraceChar : Char := Char.ofNat 125

/-- `len(line) - len(line.lstrip())`: number of leading whitespace characters. -/
def leadingWsCount (l : List Char) : ℕ :=
  (l.takeWhile isPyWs).length

/-- Python `str.strip()` on a character list. -/
def pyStrip (l : List Char) : List Char :=
  ((l.dropWhile isPyWs).reverse.dropWhile isPyWs).reverse

/-- Python `content.split('\n')`: always at least one (possibly empty) piece. -/
def splitLines : List Char → List (List Char)
  | [] => [[]]
  | c :: t =>
    if c = '\n' then [] :: splitLines t
    else
      match splitLines t with
      | [] => [[c]]
      | l :: ls => (c :: l) :: ls

/-- The lines of a file, Python `content.split('\n')`. -/
def linesOf (content : String) : List (List Char) :=
  splitLines content.toList

/-- Python substring test `pat in hay` (always true for the empty pattern). -/
def listContains (hay pat : List Char) : Bool :=
  pat.isPrefixOf hay ||
    match hay with
    | [] => false
    | _ :: t => listContains t pat

/-- Python substring test on strings. -/
def strContains (hay pat : String) : Bool :=
  listContains hay.toList pat.toList

/-- Non-overlapping occurrence count (fuelled): Python `hay.count(pat)` for a
non-empty pattern. -/
def countOccurAux (pat : List Char) : ℕ → List Char → ℕ
  | 0, _ => 0
  | _ + 1, [] => 0
  | fuel + 1, hay@(_ :: t) =>
    if pat.isPrefixOf hay then 1 + countOccurAux pat fuel (hay.drop (max 1 pat.length))
    else countOccurAux pat fuel t

/-- Python `hay.count(pat)` (non-overlapping) for a non-empty pattern. -/
def countOccur (hay pat : List Char) : ℕ :=
  countOccurAux pat hay.length hay

/-- Python `str.lower()` (ASCII). -/
def lowerStr (s : String) : String :=
  String.mk (s.toList.map Char.toLower)

/-- Python `"\n".join`-style joining used to build concrete test files. -/
def unlines : List String → String
  | [] => ""
  | [l] => l
  | l :: rest => l ++ "\n" ++ unlines rest

/-- Python `", ".join`. -/
def joinCommaSep : List String → String
  | [] => ""
  | [l] => l
  | l :: rest => l ++ ", " ++ joinCommaSep rest

/-- `acc` extended with `x` unless already present: one step of building a
Python dict's key list / an ordered set. -/
def distinctAppend {α : Type} [DecidableEq α] (acc : List α) (x : α) : List α :=
  if x ∈ acc then acc else acc ++ [x]

/-- The distinct elements of `l` in order of first appearance (a Python dict's
keys / a set's insertion order). -/
def firstSeen {α : Type} [DecidableEq α] (l : List α) : List α :=
  l.foldl distinctAppend []

/-! ## Smell detector data -/

/-- One result of a quick smell detector: the `{"lines": ..., "details": ...}`
dict built by the `_detect_*` methods of `SmellDetector`. -/
structure DetectorResult where
  lines : String
  details : String
deriving DecidableEq, Repr

/-- A pre-screened smell as assembled by `SmellDetector._pre_screen_smells`:
the detector's result dict tagged with the smell id and the fixed
description/severity stored in the `smell_detectors` registry. -/
structure Smell where
  smellType : String
  description : String
  severity : String
  lines : String
  details : String
deriving DecidableEq, Repr

/-- `_pre_screen_smells`' tagging step for one detector's results. -/
def mkSmells (t d sev : String) (rs : List DetectorResult) : List Smell :=
  rs.map fun r => ⟨t, d, sev, r.lines, r.details⟩

/-! ## `SmellDetector._detect_comment_overuse` -/

/-- The `(comment_lines, code_lines)` counters of
`_detect_comment_overuse`: each non-blank line is classified by the
language's comment syntax; unsupported extensions count nothing. -/
def commentCounts (content ext : String) : ℕ × ℕ :=
  (linesOf content).foldl
    (fun acc line =>
      let stripped := pyStrip line
      if stripped = [] then acc
      else if ext ∈ ["py"] then
        if ("#".toList).isPrefixOf stripped then (acc.1 + 1, acc.2) else (acc.1, acc.2 + 1)
      else if ext ∈ ["js", "ts", "java", "c", "cpp", "cs"] then
        if ("//".toList).isPrefixOf stripped || ("/*".toList).isPrefixOf stripped
            || ("*".toList).isPrefixOf stripped then
          (acc.1 + 1, acc.2)
        else (acc.1, acc.2 + 1)
      else acc)
    (0, 0)

def commentLineCount (content ext : String) : ℕ := (commentCounts content ext).1

def codeLineCount (content ext : String) : ℕ := (commentCounts content ext).2

/-- `total_lines = len(content.split('\n'))`. -/
def totalLineCount (content : String) : ℕ := (linesOf content).length

/-- Two-decimal rendering of the comment ratio, standing in for CPython's
`f"{comment_ratio:.2f}"` float formatting (rational round-half-up on the
numerator/denominator instead of binary-float round-half-even; no theorem
depends on this string). -/
def fmt2 (q : ℚ) : String :=
  let n : ℤ := (q.num * 200 + q.den) / (2 * q.den)
  let f := (n % 100).toNat
  toString (n / 100) ++ "." ++ (if f < 10 then "0" else "") ++ toString f

/-- `SmellDetector._detect_comment_overuse` (smell_detector.py lines 484-526):
skip files with fewer than 10 total lines, then flag when
`comment_lines / code_lines > 0.5` (the ratio is only computed when
`code_lines > 0`; the float ratio is modelled as the exact rational
`mkRat comment_lines code_lines`). -/
def detect_comment_overuse (content ext : String) : List DetectorResult :=
  let total := totalLineCount content
  let comment_lines := commentLineCount content ext
  let code_lines := codeLineCount content ext
  if total < 10 then []
  else if 0 < code_lines ∧ mkRat 1 2 < mkRat comment_lines code_lines then
    [⟨"Throughout file: " ++ toString comment_lines ++ " comment lines, "
        ++ toString code_lines ++ " code lines",
      "High comment to code ratio (" ++ fmt2 (mkRat comment_lines code_lines)
        ++ "). Excessive comments might be masking unclear code. Consider refactoring the code to be more self-documenting."⟩]
  else []

/-- `comment_overuse` findings as emitted by `_pre_screen_smells`: the
registry entry fixes description and severity (severity "low"). -/
def commentOveruseSmells (content ext : String) : List Smell :=
  mkSmells "comment_overuse" "Excessive comments that may mask bad code" "low"
    (detect_comment_overuse content ext)

/-! ## `SmellDetector._detect_duplicate_code` (smell_detector.py 349-385)

The detector never looks at the file extension: it collects every stripped
line of length ≥ 30 that is not a comment, keyed by exact text, and reports
keys with more than one occurrence (1-based line numbers). -/

/-- Skip test of `_detect_duplicate_code`: empty, comment-ish, or shorter
than `min_line_length = 30`. -/
def dupEligible (stripped : List Char) : Bool :=
  !stripped.isEmpty
    && !("#".toList).isPrefixOf stripped
    && !("//".toList).isPrefixOf stripped
    && !("/*".toList).isPrefixOf stripped
    && !("*".toList).isPrefixOf stripped
    && decide (30 ≤ stripped.length)

/-- The `(line number, stripped text)` pairs inserted into `line_dict`. -/
def meaningfulLines (content : String) : List (ℕ × List Char) :=
  (linesOf content).enum.filterMap fun p =>
    let stripped := pyStrip p.2
    if dupEligible stripped then some (p.1 + 1, stripped) else none

/-- `SmellDetector._detect_duplicate_code`.  The `ext` parameter is accepted
and ignored, exactly as in the source. -/
def detect_duplicate_code (content ext : String) : List DetectorResult :=
  let ml := meaningfulLines content
  (firstSeen (ml.map Prod.snd)).filterMap fun key =>
    let occurrences := (ml.filter fun p => p.snd = key).map Prod.fst
    if 1 < occurrences.length then
      some ⟨"Lines " ++ joinCommaSep (occurrences.map toString),
        "Duplicate code detected: '" ++ String.mk (key.take 50) ++ "...' appears "
          ++ toString occurrences.length ++ " times."⟩
    else none

/-- `duplicate_code` findings as emitted by `_pre_screen_smells`
(registry severity "high"). -/
def dupCodeSmells (content ext : String) : List Smell :=
  mkSmells "duplicate_code" "Similar code structure repeated" "high"
    (detect_duplicate_code content ext)

/-! ## `SmellDetector._detect_long_method` (smell_detector.py 99-233) -/

/-- Consumed length of the lazy regex tail `.*?\):` (DOTALL): the earliest
position where `):` occurs, counted through the end of the `:`. -/
def lazyParenColon : List Char → Option ℕ
  | ')' :: ':' :: _ => some 2
  | _ :: t => (lazyParenColon t).map (· + 1)
  | [] => none

/-- Consumed length of the lazy regex tail `.*?\)\s*{` (DOTALL): the earliest
`)` whose following whitespace run ends at `{`, counted through the `{`. -/
def lazyParenWsBrace : List Char → Option ℕ
  | [] => none
  | c :: t =>
    if c = ')' ∧ (t.drop (t.takeWhile isPyWs).length).head? = some lbraceChar then
      some (1 + (t.takeWhile isPyWs).length + 1)
    else (lazyParenWsBrace t).map (· + 1)

/-- Consumed length of the lazy regex tail `.*?\)\s*=>` (DOTALL). -/
def lazyParenWsArrow : List Char → Option ℕ
  | [] => none
  | c :: t =>
    if c = ')' ∧ ("=>".toList).isPrefixOf (t.drop (t.takeWhile isPyWs).length) then
      some (1 + (t.takeWhile isPyWs).length + 2)
    else (lazyParenWsArrow t).map (· + 1)

/-- Match of `def\s+(\w+)\s*\(.*?\):` (DOTALL) at the head of `s`, returning
the captured name and the total matched length.  `\s+`/`\w+`/`\s*` are
maximal-munch here because the neighbouring character classes are disjoint,
so the backtracking regex accepts exactly the same strings. -/
def matchPyDef (s : List Char) : Option (String × ℕ) :=
  if ("def".toList).isPrefixOf s then
    let r1 := s.drop 3
    let w := (r1.takeWhile isPyWs).length
    if w = 0 then none
    else
      let r2 := r1.drop w
      let n := (r2.takeWhile isWordChar).length
      if n = 0 then none
      else
        let r3 := r2.drop n
        let w2 := (r3.takeWhile isPyWs).length
        match r3.drop w2 with
        | '(' :: r4 =>
          match lazyParenColon r4 with
          | some k => some (String.mk (r2.take n), 3 + w + n + w2 + 1 + k)
          | none => none
        | _ => none
  else none

/-- Match of `function\s+(\w+)\s*\(.*?\)\s*{` at the head of `s`. -/
def matchJsFunctionDecl (s : List Char) : Option (String × ℕ) :=
  if ("function".toList).isPrefixOf s then
    let r1 := s.drop 8
    let w := (r1.takeWhile isPyWs).length
    if w = 0 then none
    else
      let r2 := r1.drop w
      let n := (r2.takeWhile isWordChar).length
      if n = 0 then none
      else
        let r3 := r2.drop n
        let w2 := (r3.takeWhile isPyWs).length
        match r3.drop w2 with
        | '(' :: r4 =>
          match lazyParenWsBrace r4 with
          | some k => some (String.mk (r2.take n), 8 + w + n + w2 + 1 + k)
          | none => none
        | _ => none
  else none

/-- Length of the `(?:const|let|var)` alternation when it matches at the head
of `s` (the three keywords are mutually non-prefixing, so at most one can). -/
def matchDeclKw (s : List Char) : Option ℕ :=
  if ("const".toList).isPrefixOf s then some 5
  else if ("let".toList).isPrefixOf s then some 3
  else if ("var".toList).isPrefixOf s then some 3
  else none

/-- Match of `(?:const|let|var)\s+(\w+)\s*=\s*function\s*\(.*?\)\s*{`. -/
def matchJsFunctionExpr (s : List Char) : Option (String × ℕ) :=
  match matchDeclKw s with
  | none => none
  | some k =>
    let r1 := s.drop k
    let w := (r1.takeWhile isPyWs).length
    if w = 0 then none
    else
      let r2 := r1.drop w
      let n := (r2.takeWhile isWordChar).length
      if n = 0 then none
      else
        let r3 := r2.drop n
        let w2 := (r3.takeWhile isPyWs).length
        match r3.drop w2 with
        | '=' :: r4 =>
          let w3 := (r4.takeWhile isPyWs).length
          let r5 := r4.drop w3
          if ("function".toList).isPrefixOf r5 then
            let r6 := r5.drop 8
            let w4 := (r6.takeWhile isPyWs).length
            match r6.drop w4 with
            | '(' :: r7 =>
              match lazyParenWsBrace r7 with
              | some j => some (String.mk (r2.take n), k + w + n + w2 + 1 + w3 + 8 + w4 + 1 + j)
              | none => none
            | _ => none
          else none
        | _ => none

/-- Match of `(?:const|let|var)\s+(\w+)\s*=\s*\(.*?\)\s*=>`. -/
def matchJsArrow (s : List Char) : Option (String × ℕ) :=
  match matchDeclKw s with
  | none => none
  | some k =>
    let r1 := s.drop k
    let w := (r1.takeWhile isPyWs).length
    if w = 0 then none
    else
      let r2 := r1.drop w
      let n := (r2.takeWhile isWordChar).length
      if n = 0 then none
      else
        let r3 := r2.drop n
        let w2 := (r3.takeWhile isPyWs).length
        match r3.drop w2 with
        | '=' :: r4 =>
          let w3 := (r4.takeWhile isPyWs).length
          match r4.drop w3 with
          | '(' :: r5 =>
            match lazyParenWsArrow r5 with
            | some j => some (String.mk (r2.take n), k + w + n + w2 + 1 + w3 + 1 + j)
            | none => none
          | _ => none
        | _ => none

/-- Match of `(\w+)\s*\(.*?\)\s*{` (object-method pattern). -/
def matchJsObjMethod (s : List Char) : Option (String × ℕ) :=
  let n := (s.takeWhile isWordChar).length
  if n = 0 then none
  else
    let r1 := s.drop n
    let w := (r1.takeWhile isPyWs).length
    match r1.drop w with
    | '(' :: r2 =>
      match lazyParenWsBrace r2 with
      | some k => some (String.mk (s.take n), n + w + 1 + k)
      | none => none
    | _ => none

/-- Character class `[\w\<\>\[\]]` of the C-family signature pattern. -/
def isJavaTypeChar (c : Char) : Bool :=
  isWordChar c || c = '<' || c = '>' || c = '[' || c = ']'

/-- Match of
`(?:public|private|protected|static|\s) +[\w\<\>\[\]]+\s+(\w+) *\([^\)]*\) *\{?`
at the head of `s`.  The alternation's five branches are mutually exclusive
at any given position, and every quantified class is disjoint from its
successor, so maximal munch reproduces the regex. -/
def matchJavaSig (s : List Char) : Option (String × ℕ) :=
  let kwLen : Option ℕ :=
    if ("public".toList).isPrefixOf s then some 6
    else if ("private".toList).isPrefixOf s then some 7
    else if ("protected".toList).isPrefixOf s then some 9
    else if ("static".toList).isPrefixOf s then some 6
    else
      match s with
      | c :: _ => if isPyWs c then some 1 else none
      | [] => none
  match kwLen with
  | none => none
  | some k =>
    let r1 := s.drop k
    let sp := (r1.takeWhile (· = ' ')).length
    if sp = 0 then none
    else
      let r2 := r1.drop sp
      let ty := (r2.takeWhile isJavaTypeChar).length
      if ty = 0 then none
      else
        let r3 := r2.drop ty
        let w := (r3.takeWhile isPyWs).length
        if w = 0 then none
        else
          let r4 := r3.drop w
          let n := (r4.takeWhile isWordChar).length
          if n = 0 then none
          else
            let r5 := r4.drop n
            let sp2 := (r5.takeWhile (· = ' ')).length
            match r5.drop sp2 with
            | '(' :: r6 =>
              let body := (r6.takeWhile (· ≠ ')')).length
              match r6.drop body with
              | ')' :: r7 =>
                let sp3 := (r7.takeWhile (· = ' ')).length
                let brace := if (r7.drop sp3).head? = some lbraceChar then 1 else 0
                some (String.mk (r4.take n), k + sp + ty + w + n + sp2 + 1 + body + 1 + sp3 + brace)
              | _ => none
            | _ => none

/-- `re.finditer` driver: scan left to right, at each position try the
pattern matcher; on a match emit the capture together with the suffix at the
match start and resume after the match.  Fuel = text length. -/
def scanAux (m : List Char → Option (String × ℕ)) : ℕ → List Char → List (String × List Char)
  | 0, _ => []
  | _ + 1, [] => []
  | fuel + 1, s@(_ :: t) =>
    match m s with
    | some (name, len) => (name, s) :: scanAux m fuel (s.drop (max 1 len))
    | none => scanAux m fuel t

/-- All `re.finditer` matches of pattern `m` in `content`. -/
def scanMatches (m : List Char → Option (String × ℕ)) (content : String) :
    List (String × List Char) :=
  scanAux m content.toList.length content.toList

/-- The indentation-walk of the Python branch of `_detect_long_method`
(lines 119-143): count the method's lines, skipping blanks and comments,
fixing the method's indentation at the first indented body line and stopping
at the first line indented less. -/
def pyBodyCount : List (List Char) → Option ℕ → ℕ → ℕ
  | [], _, cnt => cnt
  | line :: rest, indentation, cnt =>
    let stripped := pyStrip line
    if stripped = [] || ("#".toList).isPrefixOf stripped then
      pyBodyCount rest indentation cnt
    else
      match indentation with
      | none =>
        let spaces := leadingWsCount line
        if 0 < spaces then pyBodyCount rest (some spaces) (cnt + 1) else cnt
      | some ind =>
        let spaces := leadingWsCount line
        if ind ≤ spaces then pyBodyCount rest (some ind) (cnt + 1) else cnt

/-- `line_count` for one Python method: the `def` line plus the walked body
(`lines_after = content[method_start:].split("\n")`). -/
def pyMethodLineCount (suffix : List Char) : ℕ :=
  match splitLines suffix with
  | [] => 0
  | _ :: rest => pyBodyCount rest none 1

/-- Brace-counting loop of the JS branch (lines 168-187): index (relative to
the match start) of the brace closing the function, honouring single, double
and backtick quotes; 0 if the loop runs out (func_end stays func_start). -/
def jsFuncEndAux : List Char → ℤ → Bool → Char → ℕ → ℕ
  | [], _, _, _, _ => 0
  | c :: t, level, inStr, strChar, idx =>
    if c = dquoteChar || c = squoteChar || c = backtickChar then
      if !inStr then jsFuncEndAux t level true c (idx + 1)
      else if strChar = c then jsFuncEndAux t level false strChar (idx + 1)
      else jsFuncEndAux t level inStr strChar (idx + 1)
    else if !inStr then
      if c = lbraceChar then jsFuncEndAux t (level + 1) inStr strChar (idx + 1)
      else if c = rbraceChar then
        if level = 1 then idx
        else jsFuncEndAux t (level - 1) inStr strChar (idx + 1)
      else jsFuncEndAux t level inStr strChar (idx + 1)
    else jsFuncEndAux t level inStr strChar (idx + 1)

def jsFuncEnd (suffix : List Char) : ℕ := jsFuncEndAux suffix 0 false ' ' 0

/-- Brace-counting loop of the C-family branch (lines 208-222): only double
quotes toggle the string state. -/
def javaFuncEndAux : List Char → ℤ → Bool → ℕ → ℕ
  | [], _, _, _ => 0
  | c :: t, level, inStr, idx =>
    if c = dquoteChar then javaFuncEndAux t level (!inStr) (idx + 1)
    else if !inStr then
      if c = lbraceChar then javaFuncEndAux t (level + 1) inStr (idx + 1)
      else if c = rbraceChar then
        if level = 1 then idx
        else javaFuncEndAux t (level - 1) inStr (idx + 1)
      else javaFuncEndAux t level inStr (idx + 1)
    else javaFuncEndAux t level inStr (idx + 1)

def javaFuncEnd (suffix : List Char) : ℕ := javaFuncEndAux suffix 0 false 0

/-- Result entry for one JS/C-family function whose extracted text spans
`line_count` newlines, when over the given threshold. -/
def braceMethodResult (label name : String) (threshold : ℕ) (suffix : List Char)
    (endRel : ℕ) : Option DetectorResult :=
  let line_count := (suffix.take (endRel + 1)).count '\n'
  if threshold < line_count then
    some ⟨label ++ " " ++ name ++ ": " ++ toString line_count ++ " lines",
      label ++ " '" ++ name ++ "' is too long (" ++ toString line_count
        ++ " lines). Consider breaking it down."⟩
  else none

/-- `SmellDetector._detect_long_method`: language dispatch on the extension;
Python uses the indentation walk with threshold 20, JS/TS the four function
patterns with brace counting and threshold 15, the C family its signature
pattern with threshold 20.  Everything else falls through to `[]`. -/
def detect_long_method (content ext : String) : List DetectorResult :=
  if ext ∈ ["py"] then
    (scanMatches matchPyDef content).filterMap fun p =>
      let line_count := pyMethodLineCount p.2
      if 20 < line_count then
        some ⟨"Method " ++ p.1 ++ ": " ++ toString line_count ++ " lines",
          "Method '" ++ p.1 ++ "' is too long (" ++ toString line_count
            ++ " lines). Consider breaking it down."⟩
      else none
  else if ext ∈ ["js", "ts", "jsx", "tsx"] then
    ([matchJsFunctionDecl, matchJsFunctionExpr, matchJsArrow, matchJsObjMethod].map
      (fun m => (scanMatches m content).filterMap fun p =>
        braceMethodResult "Function" p.1 15 p.2 (jsFuncEnd p.2))).flatten
  else if ext ∈ ["java", "c", "cpp", "cs"] then
    (scanMatches matchJavaSig content).filterMap fun p =>
      braceMethodResult "Method" p.1 20 p.2 (javaFuncEnd p.2)
  else []

/-- `long_method` findings as emitted by `_pre_screen_smells`
(registry severity "medium"). -/
def longMethodSmells (content ext : String) : List Smell :=
  mkSmells "long_method" "Method that has grown too large" "medium"
    (detect_long_method content ext)

/-! ## `SmellDetector._detect_long_parameter_list` (smell_detector.py 298-347)

The claims about this detector are per-method, so the embedding captures the
loop body run for one regex match: the captured name (group 1) and raw
parameter text (group 2) are the inputs, exactly as `re.finditer` hands them
to lines 319-345. -/

/-- Python `str.split(sep)` for a single-character separator. -/
def splitSep (sep : Char) : List Char → List (List Char)
  | [] => [[]]
  | c :: t =>
    if c = sep then [] :: splitSep sep t
    else
      match splitSep sep t with
      | [] => [[c]]
      | l :: ls => (c :: l) :: ls

/-- Language-dependent parameter threshold (lines 334-339): 5 for Python,
3 for JS/TS, 4 for everything else. -/
def paramThreshold (ext : String) : ℕ :=
  if ext ∈ ["py"] then 5
  else if ext ∈ ["js", "ts"] then 3
  else 4

/-- The parameter count of lines 326-332: `1 + params.count(',')`, replaced
by the number of non-blank comma-separated pieces when the text contains a
default value (`=`). -/
def paramCountOf (params : List Char) : ℕ :=
  if '=' ∈ params then
    ((splitSep ',' params).filter fun seg => !(pyStrip seg).isEmpty).length
  else 1 + params.count ','

/-- The per-match body of `_detect_long_parameter_list` (lines 319-345):
strip the captured parameter text, skip when empty, and report when the
count exceeds the language threshold. -/
def longParamCheck (funcName rawParams ext : String) : Option DetectorResult :=
  let params := pyStrip rawParams.toList
  if params.isEmpty then none
  else
    let param_count := paramCountOf params
    if paramThreshold ext < param_count then
      some ⟨"Function " ++ funcName ++ ": " ++ toString param_count ++ " parameters",
        "Function '" ++ funcName ++ "' has too many parameters (" ++ toString param_count
          ++ "). Consider using parameter objects or restructuring."⟩
    else none

/-- A per-match `long_parameter_list` finding as emitted by
`_pre_screen_smells` (registry severity "medium"). -/
def longParamSmellOpt (funcName rawParams ext : String) : Option Smell :=
  (longParamCheck funcName rawParams ext).map fun r =>
    ⟨"long_parameter_list", "Method with excessive parameters", "medium", r.lines, r.details⟩

/-- Spec-side rendering of a declared parameter list `a, b, c` as it appears
inside the parentheses of a method signature. -/
def joinParams : List (List Char) → List Char
  | [] => []
  | [n] => n
  | n :: rest => n ++ ',' :: ' ' :: joinParams rest

/-- A well-formed declared parameter name: non-empty, and free of
whitespace, commas and default-value markers. -/
def goodParamName (n : String) : Prop :=
  n.toList ≠ [] ∧ ∀ c ∈ n.toList, isPyWs c = false ∧ c ≠ ',' ∧ c ≠ '='

instance goodParamNameDecidable (n : String) : Decidable (goodParamName n) := by
  unfold goodParamName
  infer_instance

/-! ## `SmellDetector._detect_complex_conditional` (smell_detector.py 387-426)

Per-conditional embedding: the loop body for one captured condition text
(group 1 of `if\s+(.+?):` or `if\s*\((.+?)\)`) and its 1-based line number. -/

/-- `and_count` of line 404: `condition.count(' and ') + condition.count(' && ')`. -/
def condAndCount (condition : List Char) : ℕ :=
  countOccur condition (" and ".toList) + countOccur condition (" && ".toList)

/-- `or_count` of line 405. -/
def condOrCount (condition : List Char) : ℕ :=
  countOccur condition (" or ".toList) + countOccur condition (" || ".toList)

/-- `operator_count = and_count + or_count`. -/
def condOpCount (condition : List Char) : ℕ :=
  condAndCount condition + condOrCount condition

def condOpenParen (condition : List Char) : ℕ := condition.count '('

def condCloseParen (condition : List Char) : ℕ := condition.count ')'

/-- The per-match body of `_detect_complex_conditional` (lines 400-424):
skip when the parentheses counts disagree, flag when
`operator_count > 3 or open_paren > 2`. -/
def condCheck (rawCond : String) (lineNum : ℕ) : Option DetectorResult :=
  let condition := pyStrip rawCond.toList
  let operator_count := condOpCount condition
  let open_paren := condOpenParen condition
  let close_paren := condCloseParen condition
  if open_paren ≠ close_paren then none
  else if 3 < operator_count ∨ 2 < open_paren then
    some ⟨"Line " ++ toString lineNum,
      "Complex conditional with " ++ toString operator_count ++ " logical operators and "
        ++ toString open_paren
        ++ " parentheses groupings. Consider extracting conditions to helper methods."⟩
  else none

/-- The `complexity` local computed at line 420 of the source and then never
used: the appended result dict has no severity field, so the registry's
fixed "medium" is what every emitted finding carries. -/
def condComplexityLevel (rawCond : String) : String :=
  let condition := pyStrip rawCond.toList
  if 5 < condOpCount condition ∨ 4 < condOpenParen condition then "high" else "medium"

/-- A per-match `complex_conditional` finding as emitted by
`_pre_screen_smells` (registry severity "medium"). -/
def condSmellOpt (rawCond : String) (lineNum : ℕ) : Option Smell :=
  (condCheck rawCond lineNum).map fun r =>
    ⟨"complex_conditional", "Overly complex conditional expression", "medium",
      r.lines, r.details⟩

/-! ## `structural_analyzer.estimate_file_complexity` (structural_analyzer.py 93-163) -/

/-- The basename: the part of the path after the last `/`. -/
def afterLastSep (cs : List Char) : List Char :=
  cs.foldl (fun acc c => if c = '/' then [] else acc ++ [c]) []

/-- CPython `os.path.splitext(...)[1]` on a basename: the suffix from the
last dot, provided some non-dot character precedes that dot. -/
def extOfBase (base : List Char) : List Char :=
  let afterDot := (base.reverse.takeWhile (· ≠ '.')).length
  if afterDot = base.length then []
  else
    let dotIndex := base.length - afterDot - 1
    if (base.take dotIndex).any (· ≠ '.') then base.drop dotIndex else []

/-- `os.path.splitext(file_path)[1].lower()` (line 96). -/
def extLowerOf (path : String) : String :=
  String.mk ((extOfBase (afterLastSep path.toList)).map Char.toLower)

/-- Factor 1 (lines 102-108): the line-count bonus, highest bracket wins. -/
def lineCountBonus (line_count : ℕ) : ℚ :=
  if 500 < line_count then 3
  else if 300 < line_count then 2
  else if 100 < line_count then 1
  else 0

/-- The per-line indentation widths collected at lines 111-115: leading
whitespace of each non-blank, non-comment line. -/
def indentLines (content : String) : List ℕ :=
  (linesOf content).filterMap fun line =>
    let stripped := pyStrip line
    if stripped.isEmpty then none
    else if ("#".toList).isPrefixOf stripped || ("//".toList).isPrefixOf stripped
        || ("/*".toList).isPrefixOf stripped || ("*".toList).isPrefixOf stripped then none
    else some (leadingWsCount line)

/-- Factor 2 (lines 117-128): bonuses from the maximum and average
indentation (the average is the exact rational `sum / length`). -/
def indentBonus (indents : List ℕ) : ℚ :=
  if indents.isEmpty then 0
  else
    let max_indent := indents.foldl max 0
    (if 20 < max_indent then 2 else if 12 < max_indent then 1 else 0)
      + (if (8 : ℚ) < mkRat indents.sum indents.length then 1 else 0)

/-- `control_keywords` of line 133. -/
def control_keywords : List String := ["if", "for", "while", "switch", "case"]

/-- `keyword_count` of line 134: over all keywords and lines, count the
lines whose stripped text starts with the keyword. -/
def kwCountOf (content : String) : ℕ :=
  (control_keywords.map fun kw =>
    ((linesOf content).filter fun line => (kw.toList).isPrefixOf (pyStrip line)).length).sum

/-- Factor 3 (lines 131-138): keyword-density bonus for `.py`/`.js`/`.ts`,
with `keyword_density = keyword_count / max(1, line_count)`. -/
def keywordBonus (ext : String) (kwCount line_count : ℕ) : ℚ :=
  if ext ∈ [".py", ".js", ".ts"] then
    if mkRat 1 10 < mkRat kwCount (max 1 line_count) then 1 else 0
  else 0

/-- `function_indicators` of lines 141-151 (dict lookup with default
`') {'`; the `.c`/`.cpp` entries really do repeat the same indicator). -/
def function_indicators (ext : String) : List String :=
  if ext = ".py" then ["def ", "async def "]
  else if ext = ".js" then ["function ", "const ", "=>"]
  else if ext = ".ts" then ["function ", "const ", "=>"]
  else if ext = ".java" then ["public ", "private ", "protected ", "void ", "static "]
  else if ext = ".c" then [") \x7b", ") \x7b"]
  else if ext = ".cpp" then [") \x7b", ") \x7b"]
  else if ext = ".cs" then ["public ", "private ", "protected ", "void ", "static "]
  else [") \x7b"]

/-- `function_count` of lines 152-155: lines containing any indicator. -/
def fnCountOf (ext content : String) : ℕ :=
  ((linesOf content).filter fun line =>
    (function_indicators ext).any fun ind => listContains line ind.toList).length

/-- Factor 4 (lines 157-160). -/
def functionBonus (fnCount : ℕ) : ℚ :=
  if 20 < fnCount then 2
  else if 10 < fnCount then 1
  else 0

/-- The score assembled from the four factors: base 1.0 plus the additive
bonuses, capped at 10 (line 163). -/
def complexityFromFactors (ext : String) (line_count : ℕ) (indents : List ℕ)
    (kwCount fnCount : ℕ) : ℚ :=
  min 10 (1 + lineCountBonus line_count + indentBonus indents
    + keywordBonus ext kwCount line_count + functionBonus fnCount)

/-- `estimate_file_complexity(file_path, content)`. -/
def estimate_file_complexity (path content : String) : ℚ :=
  let ext := extLowerOf path
  complexityFromFactors ext (totalLineCount content) (indentLines content)
    (kwCountOf content) (fnCountOf ext content)

/-! ## `pattern_recognizer` (pattern_recognizer.py) -/

/-- `models.analysis.DesignPattern` (confidence is a float, modelled
as an exact rational). -/
structure DesignPattern where
  name : String
  files : List String
  confidence : ℚ
  description : String
deriving DecidableEq, Repr

/-- The merge step of `deduplicate_patterns` (lines 216-237): a singleton
group is kept as-is; otherwise files are accumulated into a set (modelled in
insertion order — Python's set has no specified order, and the theorems
state the set-level property), confidence is the running maximum starting
from 0.0, and the description is the longest of the distinct non-empty
descriptions, earlier ones winning ties (Python `max(descriptions, key=len)`
returns the first maximum). -/
def mergeGroup (name : String) (group : List DesignPattern) : DesignPattern :=
  match group with
  | [p] => p
  | _ =>
    { name := name
      files := group.foldl (fun acc p => p.files.foldl distinctAppend acc) []
      confidence := group.foldl (fun m p => max m p.confidence) 0
      description :=
        let descriptions := group.foldl
          (fun acc p =>
            if p.description ≠ "" ∧ p.description ∉ acc then acc ++ [p.description] else acc)
          []
        match descriptions with
        | [] => "No description provided"
        | d :: rest => rest.foldl (fun best x => if best.length < x.length then x else best) d }

/-- `deduplicate_patterns` (lines 202-239): group by exact name in
first-occurrence order (the Python dict), then merge each group. -/
def deduplicate_patterns (patterns : List DesignPattern) : List DesignPattern :=
  (firstSeen (patterns.map (·.name))).map fun n =>
    mergeGroup n (patterns.filter fun p => p.name = n)

/-- Spec-side reading of the merged description: the longest among the
group's distinct descriptions, ties broken by first appearance. -/
def longestDistinctDescription (ds : List String) : String :=
  match firstSeen ds with
  | [] => "No description provided"
  | d :: rest => rest.foldl (fun best x => if best.length < x.length then x else best) d

/-- `re.search` driver: does the boolean matcher fire at any suffix? -/
def existsMatch (m : List Char → Bool) : List Char → Bool
  | [] => m []
  | s@(_ :: t) => m s || existsMatch m t

/-- One-position match of `def create_\w+\(`. -/
def matchPyCreate (s : List Char) : Bool :=
  ("def create_".toList).isPrefixOf s &&
    (let r := s.drop 11
     let w := (r.takeWhile isWordChar).length
     decide (w ≠ 0) && decide ((r.drop w).head? = some '('))

/-- One-position match of `function create\w+\(`. -/
def matchJsCreateFn (s : List Char) : Bool :=
  ("function create".toList).isPrefixOf s &&
    (let r := s.drop 15
     let w := (r.takeWhile isWordChar).length
     decide (w ≠ 0) && decide ((r.drop w).head? = some '('))

/-- One-position match of `create\w+\s*=\s*function`. -/
def matchJsCreateAssign (s : List Char) : Bool :=
  ("create".toList).isPrefixOf s &&
    (let r := s.drop 6
     let w := (r.takeWhile isWordChar).length
     decide (w ≠ 0) &&
       (let r2 := (r.drop w).dropWhile isPyWs
        match r2 with
        | '=' :: r3 => ("function".toList).isPrefixOf (r3.dropWhile isPyWs)
        | _ => false))

/-- `detect_factory` (pattern_recognizer.py lines 98-122): filename keyword,
then generic content check, then language-specific checks. -/
def detect_factory (file_path content : String) : Bool :=
  let ext := extLowerOf file_path
  let filename := String.mk ((afterLastSep file_path.toList).map Char.toLower)
  if strContains filename "factory" then true
  else if strContains content "create"
      && (strContains content "return new" || strContains content "return ") then true
  else if ext = ".py" then existsMatch matchPyCreate content.toList
  else if ext ∈ [".js", ".ts"] then
    existsMatch matchJsCreateFn content.toList || existsMatch matchJsCreateAssign content.toList
  else if ext ∈ [".java", ".cs"] then
    strContains content "abstract" && strContains content "new"
      && (strContains content "protected" || strContains content "public")
  else false

/-- The claim's two Singleton records: files {A}/{B}, confidences 0.6/0.8. -/
def psC1 : List DesignPattern :=
  [⟨"Singleton", ["A"], mkRat 3 5, "s"⟩,
   ⟨"Singleton", ["B"], mkRat 4 5, "The Singleton description"⟩]

/-! ## Concrete test files -/

/-- A 15-line Python file with 5 comment lines and 10 code lines
(comment/code ratio exactly 0.5). -/
def fileC2 : String :=
  "# a\n# a\n# a\n# a\n# a\nx = 1\nx = 1\nx = 1\nx = 1\nx = 1\nx = 1\nx = 1\nx = 1\nx = 1\nx = 1"

/-- A 12-line Python file consisting entirely of comments and blanks. -/
def fileC10 : String :=
  "# a\n# b\n\n# c\n# d\n\n# e\n# f\n# g\n# h\n\n# i"

/-- A Python file with a single function whose body is `n` uniformly
indented lines. -/
def pyFunFile (n : ℕ) : String :=
  unlines ("def foo():" :: List.replicate n "    x = 1")

/-- A two-line file whose single meaningful line (34 characters) repeats. -/
def fileC5 : String :=
  "result = compute_total_value(a, b)\nresult = compute_total_value(a, b)"

/-- A 109-line Python file: 11 `if` lines followed by 98 blank lines
(keyword density 11/109 > 0.1). -/
def fileC7a : String :=
  unlines (List.replicate 11 "if x:" ++ List.replicate 98 "")

/-- The same file with two more blank lines: 111 lines, keyword density
11/111 ≤ 0.1. -/
def fileC7b : String :=
  unlines (List.replicate 11 "if x:" ++ List.replicate 100 "")

end VibeDoc

namespace VibeDoc

/-! ## Theorems for claims C2 and C10 -/

/-- Claim C2 counterexample: the claim's own example input — a Python file
with 10 code lines and 5 comment lines (ratio 0.5, 15 total lines) — yields
NO comment-overuse finding (the code triggers only on ratio > 0.5, and the
registry severity would be "low", not "medium"). -/
theorem comment_overuse_claim_counterexample :
    commentLineCount fileC2 "py" = 5 ∧ codeLineCount fileC2 "py" = 10 ∧
      totalLineCount fileC2 = 15 ∧ (2 : ℚ) / 5 < (5 : ℚ) / 10 ∧
      commentOveruseSmells fileC2 "py" = [] := by
  refine ⟨by decide, by decide, by decide, by norm_num, by decide⟩

/-- The `if` guard of the detector, rephrased with real division as the spec
states the ratio. -/
theorem ratio_guard_iff (c d : ℕ) :
    (0 < d ∧ mkRat 1 2 < mkRat c d) ↔
      (0 < d ∧ (1 : ℚ) / 2 < (c : ℚ) / (d : ℚ)) := by
  constructor
  · rintro ⟨hd, hr⟩
    refine ⟨hd, ?_⟩
    rw [Rat.mkRat_eq_div, Rat.mkRat_eq_div] at hr
    push_cast at hr
    norm_num at hr ⊢
    exact hr
  · rintro ⟨hd, hr⟩
    refine ⟨hd, ?_⟩
    rw [Rat.mkRat_eq_div, Rat.mkRat_eq_div]
    push_cast
    norm_num
    exact hr

/-- Claim C2 (amended): the comment-overuse detector emits a finding exactly
when the file has at least 10 total lines, a positive code-line count, and
comment/code ratio strictly greater than 0.5; every emitted finding carries
severity "low" (the registry's fixed severity for this smell type). -/
theorem comment_overuse_amended (content ext : String) :
    (commentOveruseSmells content ext ≠ [] ↔
      (10 ≤ totalLineCount content ∧ 0 < codeLineCount content ext ∧
        (1 : ℚ) / 2 < (commentLineCount content ext : ℚ) / (codeLineCount content ext : ℚ))) ∧
    (commentOveruseSmells content ext).map (·.severity) =
      List.replicate (commentOveruseSmells content ext).length "low" := by
  simp only [commentOveruseSmells, mkSmells, detect_comment_overuse]
  split_ifs with h10 htrig
  · exact ⟨⟨fun h => absurd rfl h, fun h => absurd h.1 (by omega)⟩, rfl⟩
  · have h2 := (ratio_guard_iff (commentLineCount content ext)
      (codeLineCount content ext)).1 htrig
    exact ⟨⟨fun _ => ⟨by omega, h2.1, h2.2⟩, fun _ => by simp⟩, rfl⟩
  · refine ⟨⟨fun h => absurd rfl h, ?_⟩, rfl⟩
    rintro ⟨_, hc, hr⟩
    exact absurd ((ratio_guard_iff _ _).2 ⟨hc, hr⟩) htrig

/-- Shared helper: with zero counted code lines the detector's trigger can
never hold, so the result list is empty. -/
theorem comment_overuse_empty_of_no_code {content ext : String}
    (h : codeLineCount content ext = 0) :
    commentOveruseSmells content ext = [] := by
  unfold commentOveruseSmells mkSmells detect_comment_overuse
  by_cases h10 : totalLineCount content < 10
  · simp [h10]
  · simp [h10, h]

/-- Claim C10: a file with zero counted code lines never produces a
comment-overuse finding (the ratio is only computed under the guard
`code_lines > 0`, so an all-comment file is passed over silently). -/
theorem comment_overuse_zero_code (content ext : String)
    (h : codeLineCount content ext = 0) :
    commentOveruseSmells content ext = [] :=
  comment_overuse_empty_of_no_code h

/-- Witness for C10: the all-comment 12-line file has zero code lines and
produces no finding. -/
theorem comment_overuse_zero_code_witness :
    codeLineCount fileC10 "py" = 0 ∧ commentOveruseSmells fileC10 "py" = [] :=
  ⟨by decide, comment_overuse_zero_code fileC10 "py" (by decide)⟩

/-! ## Theorems for claim C3 -/

/-- Claim C3 counterexample: a Python file with a single function whose body
is 55 lines (well past the claim's 50-line cut-off for severity "high")
still produces a finding with severity "medium" — the registry severity for
`long_method` is fixed — and its `lines` field carries the method name and a
line count, not a 1-based inclusive start/end range. -/
theorem long_method_severity_counterexample :
    longMethodSmells (pyFunFile 55) "py" =
      [⟨"long_method", "Method that has grown too large", "medium",
        "Method foo: 56 lines",
        "Method 'foo' is too long (56 lines). Consider breaking it down."⟩] ∧
      (50 : ℕ) < 56 ∧ "medium" ≠ "high" :=
  ⟨by decide, by decide, by decide⟩

/-- Claim C3 (amended): a Python file containing a single function whose body
is 35 lines produces exactly one `long_method` smell with severity "medium";
the finding's location field is the string "Method foo: 36 lines" (method
name plus counted lines including the `def` line), not a start/end line
range; and the severity stays "medium" for bodies longer than 50 lines. -/
theorem long_method_35_amended :
    longMethodSmells (pyFunFile 35) "py" =
      [⟨"long_method", "Method that has grown too large", "medium",
        "Method foo: 36 lines",
        "Method 'foo' is too long (36 lines). Consider breaking it down."⟩] ∧
      (longMethodSmells (pyFunFile 55) "py").map (·.severity) = ["medium"] :=
  ⟨by decide, by decide⟩

/-! ## Theorems for claim C5 -/

/-- With an extension outside both comment-syntax groups, the line classifier
of `_detect_comment_overuse` counts nothing. -/
theorem commentCounts_unsupported (content ext : String)
    (h1 : ext ∉ ["py"]) (h2 : ext ∉ ["js", "ts", "java", "c", "cpp", "cs"]) :
    commentCounts content ext = (0, 0) := by
  unfold commentCounts
  generalize linesOf content = ls
  induction ls with
  | nil => rfl
  | cons line rest ih =>
    rw [List.foldl_cons]
    convert ih using 2
    simp only [h1, h2, if_false]
    split_ifs <;> rfl

/-- Claim C5 (amended, positive part): for an unsupported extension the
language-dispatched detectors return empty result sets — `long_method` falls
through all three language branches, and comment counting classifies no
lines so comment-overuse cannot trigger. -/
theorem unsupported_ext_empty (content ext : String)
    (h : ext ∉ ["py", "js", "ts", "jsx", "tsx", "java", "c", "cpp", "cs"]) :
    longMethodSmells content ext = [] ∧ commentOveruseSmells content ext = [] := by
  simp only [List.mem_cons, List.not_mem_nil, or_false, not_or] at h
  obtain ⟨hpy, hjs, hts, hjsx, htsx, hjava, hc, hcpp, hcs⟩ := h
  constructor
  · have g1 : ext ∉ ["py"] := by simp [hpy]
    have g2 : ext ∉ ["js", "ts", "jsx", "tsx"] := by simp [hjs, hts, hjsx, htsx]
    have g3 : ext ∉ ["java", "c", "cpp", "cs"] := by simp [hjava, hc, hcpp, hcs]
    unfold longMethodSmells mkSmells detect_long_method
    rw [if_neg g1, if_neg g2, if_neg g3]
    rfl
  · refine comment_overuse_empty_of_no_code ?_
    unfold codeLineCount
    rw [commentCounts_unsupported content ext (by simp [hpy])
      (by simp [hjs, hts, hjava, hc, hcpp, hcs])]

/-- Witness for the amended C5 theorem at the concrete extension "txt". -/
theorem unsupported_ext_empty_witness :
    "txt" ∉ ["py", "js", "ts", "jsx", "tsx", "java", "c", "cpp", "cs"] ∧
      (longMethodSmells fileC5 "txt" = [] ∧ commentOveruseSmells fileC5 "txt" = []) :=
  ⟨by decide, unsupported_ext_empty fileC5 "txt" (by decide)⟩

/-- Claim C5 counterexample: the duplicate-code detector ignores the file's
extension, so a file tagged with the unsupported extension "txt" still
produces a (non-empty) finding — not every detector short-circuits to an
empty result set. -/
theorem duplicate_code_unsupported_counterexample :
    dupCodeSmells fileC5 "txt" =
      [⟨"duplicate_code", "Similar code structure repeated", "high", "Lines 1, 2",
        "Duplicate code detected: 'result = compute_total_value(a, b)...' appears 2 times."⟩] := by
  decide

/-! ## Helper lemmas about stripping and joined parameter lists -/

theorem dropWhile_eq_self_of_head {p : Char → Bool} {l : List Char}
    (h : ∀ c, l.head? = some c → p c = false) : l.dropWhile p = l := by
  cases l with
  | nil => rfl
  | cons c t => rw [List.dropWhile_cons, h c rfl]; simp

theorem mem_of_headOpt {α : Type} {l : List α} {a : α} (h : l.head? = some a) : a ∈ l := by
  cases l with
  | nil => simp at h
  | cons b t =>
    simp only [List.head?_cons, Option.some_inj] at h
    exact h ▸ List.mem_cons_self b t

/-- `str.strip()` is the identity when neither end is whitespace. -/
theorem pyStrip_eq_self {l : List Char}
    (h1 : ∀ c, l.head? = some c → isPyWs c = false)
    (h2 : ∀ c, l.getLast? = some c → isPyWs c = false) : pyStrip l = l := by
  unfold pyStrip
  rw [dropWhile_eq_self_of_head h1,
    dropWhile_eq_self_of_head (fun c hc => h2 c (by rwa [List.head?_reverse] at hc)),
    List.reverse_reverse]

/-- Structure of a joined parameter list built from well-formed names:
non-empty, whitespace-free ends, exactly `length - 1` commas, and no `=`. -/
theorem joinParams_facts (ls : List (List Char)) (h0 : ls ≠ [])
    (h : ∀ l ∈ ls, l ≠ [] ∧ ∀ c ∈ l, isPyWs c = false ∧ c ≠ ',' ∧ c ≠ '=') :
    joinParams ls ≠ [] ∧
      (∀ c, (joinParams ls).head? = some c → isPyWs c = false) ∧
      (∀ c, (joinParams ls).getLast? = some c → isPyWs c = false) ∧
      (joinParams ls).count ',' = ls.length - 1 ∧
      '=' ∉ joinParams ls := by
  induction ls with
  | nil => exact absurd rfl h0
  | cons n rest ih =>
    obtain ⟨hn, hc⟩ := h n (List.mem_cons_self n rest)
    cases rest with
    | nil =>
      refine ⟨hn, ?_, ?_, ?_, ?_⟩
      · intro c hch
        exact (hc c (mem_of_headOpt hch)).1
      · intro c hch
        refine (hc c ?_).1
        rw [← List.head?_reverse] at hch
        exact (List.mem_reverse).mp (mem_of_headOpt hch)
      · simpa using List.count_eq_zero.mpr fun hmem => (hc ',' hmem).2.1 rfl
      · exact fun hmem => (hc '=' hmem).2.2 rfl
    | cons m t =>
      have ihr := ih (by simp) (fun l hl => h l (List.mem_cons_of_mem n hl))
      obtain ⟨hne, hhead, hlast, hcount, hmemEq⟩ := ihr
      have hjoin : joinParams (n :: m :: t) = n ++ ',' :: ' ' :: joinParams (m :: t) := rfl
      refine ⟨?_, ?_, ?_, ?_, ?_⟩
      · rw [hjoin]
        simp [hn]
      · intro c hch
        rw [hjoin] at hch
        have hh : (n ++ ',' :: ' ' :: joinParams (m :: t)).head? = n.head? := by
          cases n with
          | nil => exact absurd rfl hn
          | cons a t2 => rfl
        rw [hh] at hch
        exact (hc c (mem_of_headOpt hch)).1
      · intro c hch
        rw [hjoin] at hch
        rw [List.getLast?_append_of_ne_nil n (by simp)] at hch
        have hsplit : (',' :: ' ' :: joinParams (m :: t)) = [',', ' '] ++ joinParams (m :: t) := rfl
        rw [hsplit, List.getLast?_append_of_ne_nil _ hne] at hch
        exact hlast c hch
      · rw [hjoin, List.count_append]
        have hzero : n.count ',' = 0 := List.count_eq_zero.mpr fun hmem => (hc ',' hmem).2.1 rfl
        rw [hzero]
        simp only [List.count_cons, hcount, List.length_map, List.length_cons]
        simp
      · rw [hjoin]
        intro hmem
        rcases List.mem_append.mp hmem with hmem | hmem
        · exact (hc '=' hmem).2.2 rfl
        · simp only [List.mem_cons] at hmem
          rcases hmem with h1 | h1 | hmem
          · exact absurd h1 (by decide)
          · exact absurd h1 (by decide)
          · exact hmemEq hmem

/-- `", ".join` at the character level. -/
theorem joinCommaSep_toList (names : List String) :
    (joinCommaSep names).toList = joinParams (names.map (·.toList)) := by
  induction names with
  | nil => rfl
  | cons n rest ih =>
    cases rest with
    | nil => rfl
    | cons m t =>
      show (n ++ ", " ++ joinCommaSep (m :: t)).toList = _
      have happ : ∀ s u : String, (s ++ u).toList = s.toList ++ u.toList := by
        intro s u
        cases s
        cases u
        rfl
      rw [happ, happ, ih, List.append_assoc]
      rfl

/-! ## Theorems for claim C4 -/

/-- Claim C4 counterexample: a method with 7 declared parameters (more than
6) in a default-threshold language is reported, but with the registry's
fixed severity "medium" — never "high". -/
theorem long_parameter_severity_counterexample :
    longParamSmellOpt "f" "a, b, c, d, e, f, g" "java" =
      some ⟨"long_parameter_list", "Method with excessive parameters", "medium",
        "Function f: 7 parameters",
        "Function 'f' has too many parameters (7). Consider using parameter objects or restructuring."⟩ ∧
      paramThreshold "java" = 4 ∧ (6 : ℕ) < 7 ∧ "medium" ≠ "high" :=
  ⟨by decide, by decide, by decide, by decide⟩

/-- Claim C4 (amended): for a method whose declared parameter list consists
of well-formed names, the detector emits no finding when the count is at
most the per-language threshold (5 for Python, 3 for JS/TS, 4 otherwise),
and emits a finding when the count is threshold+1 — always with severity
"medium" (the registry's fixed severity; no parameter count yields "high"). -/
theorem long_parameter_amended (funcName : String) (names : List String) (ext : String)
    (h : ∀ n ∈ names, goodParamName n) :
    (names.length ≤ paramThreshold ext →
      longParamSmellOpt funcName (joinCommaSep names) ext = none) ∧
    (names.length = paramThreshold ext + 1 →
      ∃ s, longParamSmellOpt funcName (joinCommaSep names) ext = some s ∧
        s.severity = "medium") := by
  cases names with
  | nil =>
    refine ⟨fun _ => rfl, fun habs => ?_⟩
    simp only [List.length_nil] at habs
    omega
  | cons n rest =>
    obtain ⟨hne, hhead, hlast, hcount, hmemEq⟩ :=
      joinParams_facts ((n :: rest).map (·.toList)) (by simp)
        (by
          intro l hl
          rw [List.mem_map] at hl
          obtain ⟨nm, hnm, rfl⟩ := hl
          exact h nm hnm)
    have hstrip : pyStrip ((joinCommaSep (n :: rest)).toList) =
        joinParams ((n :: rest).map (·.toList)) := by
      rw [joinCommaSep_toList]
      exact pyStrip_eq_self hhead hlast
    have hpc : paramCountOf (joinParams ((n :: rest).map (·.toList))) = (n :: rest).length := by
      unfold paramCountOf
      rw [if_neg hmemEq, hcount]
      simp only [List.length_map, List.length_cons]
      omega
    have hempty : (joinParams ((n :: rest).map (·.toList))).isEmpty = false := by
      cases hj : joinParams ((n :: rest).map (·.toList)) with
      | nil => exact absurd hj hne
      | cons a t => rfl
    constructor
    · intro hle
      simp only [longParamSmellOpt, longParamCheck, hstrip, hempty, Bool.false_eq_true,
        if_false, hpc]
      rw [if_neg (by omega)]
      rfl
    · intro heq
      refine ⟨⟨"long_parameter_list", "Method with excessive parameters", "medium",
        "Function " ++ funcName ++ ": " ++ toString (n :: rest).length ++ " parameters",
        "Function '" ++ funcName ++ "' has too many parameters (" ++ toString (n :: rest).length
          ++ "). Consider using parameter objects or restructuring."⟩, ?_, rfl⟩
      simp only [longParamSmellOpt, longParamCheck, hstrip, hempty, Bool.false_eq_true,
        if_false, hpc]
      rw [if_pos (by omega)]
      rfl

/-- Witness for the amended C4 theorem: six well-formed Python parameters
(threshold 5, so 6 = threshold+1) produce a "medium" finding. -/
theorem long_parameter_amended_witness :
    (∀ n ∈ ["a", "b", "c", "d", "e", "f"], goodParamName n) ∧
      (∃ s, longParamSmellOpt "foo" (joinCommaSep ["a", "b", "c", "d", "e", "f"]) "py" = some s ∧
        s.severity = "medium") :=
  ⟨by decide, (long_parameter_amended "foo" ["a", "b", "c", "d", "e", "f"] "py"
    (by decide)).2 (by decide)⟩

/-! ## Helper lemmas for the complexity estimator -/

theorem lineCountBonus_nonneg (n : ℕ) : 0 ≤ lineCountBonus n := by
  unfold lineCountBonus
  split_ifs <;> norm_num

theorem maxIndentBonus_nonneg (m : ℕ) :
    (0 : ℚ) ≤ if 20 < m then (2 : ℚ) else if 12 < m then 1 else 0 := by
  split_ifs <;> norm_num

theorem indentBonus_nonneg (l : List ℕ) : 0 ≤ indentBonus l := by
  unfold indentBonus
  split_ifs
  all_goals try simp only []
  all_goals have := maxIndentBonus_nonneg (List.foldl max 0 l)
  all_goals linarith

theorem keywordBonus_nonneg (ext : String) (k n : ℕ) : 0 ≤ keywordBonus ext k n := by
  unfold keywordBonus
  split_ifs <;> norm_num

theorem functionBonus_nonneg (k : ℕ) : 0 ≤ functionBonus k := by
  unfold functionBonus
  split_ifs <;> norm_num

/-- The assembled score is at least the base 1.0. -/
theorem complexityFromFactors_ge_one (ext : String) (n : ℕ) (indents : List ℕ)
    (kwCount fnCount : ℕ) : 1 ≤ complexityFromFactors ext n indents kwCount fnCount := by
  unfold complexityFromFactors
  refine le_min (by norm_num) ?_
  have h1 := lineCountBonus_nonneg n
  have h2 := indentBonus_nonneg indents
  have h3 := keywordBonus_nonneg ext kwCount n
  have h4 := functionBonus_nonneg fnCount
  linarith

theorem complexityFromFactors_le_ten (ext : String) (n : ℕ) (indents : List ℕ)
    (kwCount fnCount : ℕ) : complexityFromFactors ext n indents kwCount fnCount ≤ 10 :=
  min_le_left _ _

/-- The line-count bonus alone is monotone in the line count. -/
theorem lineCountBonus_mono {n₁ n₂ : ℕ} (h : n₁ ≤ n₂) :
    lineCountBonus n₁ ≤ lineCountBonus n₂ := by
  unfold lineCountBonus
  split_ifs <;> (try norm_num) <;> omega

/-! ## Theorems for claims C7 and C9 -/

/-- Claim C7 counterexample: two Python files that differ only in appended
blank lines — identical keyword lines, indentation profile and function
count — where the file with MORE lines (111 vs 109) scores strictly LESS
(2.0 vs 3.0): growing the line count past 10×keyword_count kills the
keyword-density bonus without crossing a line-count bracket. -/
theorem complexity_monotonic_counterexample :
    totalLineCount fileC7a = 109 ∧ totalLineCount fileC7b = 111 ∧
      estimate_file_complexity "a.py" fileC7a = 3 ∧
      estimate_file_complexity "a.py" fileC7b = 2 := by
  have e1 : extLowerOf "a.py" = ".py" := by decide
  have ha1 : totalLineCount fileC7a = 109 := by decide
  have ha2 : indentLines fileC7a = List.replicate 11 0 := by decide
  have ha3 : kwCountOf fileC7a = 11 := by decide
  have ha4 : fnCountOf ".py" fileC7a = 0 := by decide
  have hb1 : totalLineCount fileC7b = 111 := by decide
  have hb2 : indentLines fileC7b = List.replicate 11 0 := by decide
  have hb3 : kwCountOf fileC7b = 11 := by decide
  have hb4 : fnCountOf ".py" fileC7b = 0 := by decide
  have hfa : estimate_file_complexity "a.py" fileC7a =
      complexityFromFactors ".py" 109 (List.replicate 11 0) 11 0 := by
    unfold estimate_file_complexity
    rw [e1]
    simp only []
    rw [ha1, ha2, ha3, ha4]
  have hfb : estimate_file_complexity "a.py" fileC7b =
      complexityFromFactors ".py" 111 (List.replicate 11 0) 11 0 := by
    unfold estimate_file_complexity
    rw [e1]
    simp only []
    rw [hb1, hb2, hb3, hb4]
  have hva : complexityFromFactors ".py" 109 (List.replicate 11 0) 11 0 = 3 := by
    unfold complexityFromFactors
    rw [show lineCountBonus 109 = 1 by unfold lineCountBonus; norm_num]
    rw [show indentBonus (List.replicate 11 0) = 0 by
      unfold indentBonus
      rw [if_neg (by decide)]
      simp only []
      rw [show List.foldl max 0 (List.replicate 11 0) = 0 from by decide,
        if_neg (show ¬((8 : ℚ) <
          mkRat ((List.replicate 11 0 : List ℕ).sum : ℤ)
            (List.replicate 11 0 : List ℕ).length) from by decide)]
      norm_num]
    rw [show keywordBonus ".py" 11 109 = 1 by
      unfold keywordBonus
      rw [if_pos (by decide), if_pos (by decide)]]
    rw [show functionBonus 0 = 0 by unfold functionBonus; norm_num]
    norm_num
  have hvb : complexityFromFactors ".py" 111 (List.replicate 11 0) 11 0 = 2 := by
    unfold complexityFromFactors
    rw [show lineCountBonus 111 = 1 by unfold lineCountBonus; norm_num]
    rw [show indentBonus (List.replicate 11 0) = 0 by
      unfold indentBonus
      rw [if_neg (by decide)]
      simp only []
      rw [show List.foldl max 0 (List.replicate 11 0) = 0 from by decide,
        if_neg (show ¬((8 : ℚ) <
          mkRat ((List.replicate 11 0 : List ℕ).sum : ℤ)
            (List.replicate 11 0 : List ℕ).length) from by decide)]
      norm_num]
    rw [show keywordBonus ".py" 11 111 = 0 by
      unfold keywordBonus
      rw [if_pos (by decide), if_neg (by decide)]]
    rw [show functionBonus 0 = 0 by unfold functionBonus; norm_num]
    norm_num
  exact ⟨ha1, hb1, hfa ▸ hva, hfb ▸ hvb⟩

/-- Claim C7 (amended): the complexity score always lies in [0,10] (indeed
in [1,10]); and monotonicity in the line count holds for extensions outside
`.py`/`.js`/`.ts` — where the keyword-density factor is absent — with all
other factors held fixed.  For the keyword extensions monotonicity fails,
because the density bonus divides the keyword count by the line count. -/
theorem complexity_amended :
    (∀ path content : String, 0 ≤ estimate_file_complexity path content ∧
      estimate_file_complexity path content ≤ 10) ∧
    (∀ (ext : String) (n₁ n₂ : ℕ) (indents : List ℕ) (kwCount fnCount : ℕ),
      ext ∉ [".py", ".js", ".ts"] → n₁ ≤ n₂ →
      complexityFromFactors ext n₁ indents kwCount fnCount ≤
        complexityFromFactors ext n₂ indents kwCount fnCount) := by
  constructor
  · intro path content
    unfold estimate_file_complexity
    exact ⟨le_trans zero_le_one (complexityFromFactors_ge_one _ _ _ _ _),
      complexityFromFactors_le_ten _ _ _ _ _⟩
  · intro ext n₁ n₂ indents kwCount fnCount hext h12
    unfold complexityFromFactors keywordBonus
    simp only [if_neg hext]
    have hm := lineCountBonus_mono h12
    refine min_le_min le_rfl ?_
    linarith

/-- Witness for the amended C7 theorem: a `.java` file's factor score is
monotone from 5 to 500 lines. -/
theorem complexity_amended_witness :
    (".java" ∉ [".py", ".js", ".ts"] ∧ (5 : ℕ) ≤ 500) ∧
      complexityFromFactors ".java" 5 [] 0 0 ≤ complexityFromFactors ".java" 500 [] 0 0 :=
  ⟨⟨by decide, by decide⟩,
    complexity_amended.2 ".java" 5 500 [] 0 0 (by decide) (by decide)⟩

/-- Claim C9: the complexity score is bounded below by the base 1.0 (the
four adjustments only add, and the cap only cuts from above), so it always
lies in [1,10] — strictly inside the spec's [0,10] clamp and never 0. -/
theorem complexity_score_range (path content : String) :
    1 ≤ estimate_file_complexity path content ∧
      estimate_file_complexity path content ≤ 10 := by
  unfold estimate_file_complexity
  exact ⟨complexityFromFactors_ge_one _ _ _ _ _, complexityFromFactors_le_ten _ _ _ _ _⟩

/-! ## Theorems for claim C8 -/

/-- Claim C8: whenever the lowercased basename contains "factory", the
factory detector returns true, regardless of the file's content (the
filename check is the first branch and short-circuits everything else). -/
theorem detect_factory_filename (path content : String)
    (h : strContains (String.mk ((afterLastSep path.toList).map Char.toLower)) "factory" = true) :
    detect_factory path content = true := by
  unfold detect_factory
  simp only [h, if_true]

/-- Witness for C8: `UserFactory.py` with the claim's content is detected
via the filename-keyword rule. -/
theorem detect_factory_filename_witness :
    strContains (String.mk ((afterLastSep "UserFactory.py".toList).map Char.toLower))
        "factory" = true ∧
      detect_factory "UserFactory.py" "def create_user(name):\n    return User(name)" = true :=
  ⟨by decide, detect_factory_filename "UserFactory.py"
    "def create_user(name):\n    return User(name)" (by decide)⟩

/-! ## Helper lemmas for deduplication (claim C1) -/

theorem mem_distinctAppend {α : Type} [DecidableEq α] (acc : List α) (x y : α) :
    y ∈ distinctAppend acc x ↔ y ∈ acc ∨ y = x := by
  unfold distinctAppend
  split_ifs with hmem
  · constructor
    · exact fun hy => Or.inl hy
    · rintro (hy | rfl)
      · exact hy
      · exact hmem
  · simp [List.mem_append]

theorem mem_foldl_distinctAppend {α : Type} [DecidableEq α] (l acc : List α) (y : α) :
    y ∈ l.foldl distinctAppend acc ↔ y ∈ acc ∨ y ∈ l := by
  induction l generalizing acc with
  | nil => simp
  | cons a t ih =>
    rw [List.foldl_cons, ih, mem_distinctAppend]
    simp [or_assoc]

theorem mem_firstSeen {α : Type} [DecidableEq α] (l : List α) (y : α) :
    y ∈ firstSeen l ↔ y ∈ l := by
  unfold firstSeen
  rw [mem_foldl_distinctAppend]
  simp

theorem nodup_foldl_distinctAppend {α : Type} [DecidableEq α] (l : List α) :
    ∀ acc : List α, acc.Nodup → (l.foldl distinctAppend acc).Nodup := by
  induction l with
  | nil => exact fun acc h => h
  | cons a t ih =>
    intro acc h
    rw [List.foldl_cons]
    apply ih
    unfold distinctAppend
    split_ifs with hmem
    · exact h
    · simp [List.nodup_append, h, hmem]

theorem firstSeen_nodup {α : Type} [DecidableEq α] (l : List α) : (firstSeen l).Nodup :=
  nodup_foldl_distinctAppend l [] (by simp)

theorem toFinset_foldl_distinctAppend (l acc : List String) :
    (l.foldl distinctAppend acc).toFinset = acc.toFinset ∪ l.toFinset := by
  ext x
  simp [List.mem_toFinset, mem_foldl_distinctAppend]

/-- Set-level description of the merged file accumulator. -/
theorem toFinset_filesFold (g : List DesignPattern) :
    ∀ acc : List String,
      (g.foldl (fun acc p => p.files.foldl distinctAppend acc) acc).toFinset
        = acc.toFinset ∪ (g.map (·.files)).foldr (fun fs a => fs.toFinset ∪ a) ∅ := by
  induction g with
  | nil => intro acc; simp
  | cons p t ih =>
    intro acc
    rw [List.foldl_cons, ih, toFinset_foldl_distinctAppend]
    ext x
    simp [or_assoc]

theorem le_foldl_max (l : List ℚ) : ∀ c : ℚ,
    c ≤ l.foldl max c ∧ ∀ y ∈ l, y ≤ l.foldl max c := by
  induction l with
  | nil => intro c; simp
  | cons a t ih =>
    intro c
    rw [List.foldl_cons]
    obtain ⟨h1, h2⟩ := ih (max c a)
    refine ⟨le_trans (le_max_left c a) h1, ?_⟩
    intro y hy
    rcases List.mem_cons.mp hy with rfl | hy
    · exact le_trans (le_max_right c y) h1
    · exact h2 y hy

theorem foldl_max_mem (l : List ℚ) : ∀ c : ℚ, l.foldl max c = c ∨ l.foldl max c ∈ l := by
  induction l with
  | nil => intro c; simp
  | cons a t ih =>
    intro c
    rw [List.foldl_cons]
    rcases ih (max c a) with hh | hh
    · rcases max_choice c a with hc | hc
      · exact Or.inl (hh.trans hc)
      · refine Or.inr ?_
        rw [hh.trans hc]
        exact List.mem_cons_self a t
    · exact Or.inr (List.mem_cons_of_mem a hh)

/-- A fold of `max` from 0 over non-negative values attains the maximum of
the list. -/
theorem exists_foldl_max_zero (l : List ℚ) (hne : l ≠ []) (h : ∀ x ∈ l, 0 ≤ x) :
    ∃ x ∈ l, l.foldl max 0 = x ∧ ∀ y ∈ l, y ≤ x := by
  obtain ⟨_, hall⟩ := le_foldl_max l 0
  rcases foldl_max_mem l 0 with h0 | hm
  · cases l with
    | nil => exact absurd rfl hne
    | cons a t =>
      have ha2 : 0 ≤ a := h a (List.mem_cons_self a t)
      have ha1 : a ≤ 0 := h0 ▸ hall a (List.mem_cons_self a t)
      refine ⟨a, List.mem_cons_self a t, ?_, ?_⟩
      · rw [h0]
        exact (le_antisymm ha1 ha2).symm
      · intro y hy
        exact le_trans (h0 ▸ hall y hy) ha2
  · exact ⟨_, hm, rfl, hall⟩

/-- With every description non-empty, the source's description accumulator
is exactly the first-seen distinct list of the group's descriptions. -/
theorem descFold_eq_firstSeen (g : List DesignPattern)
    (h : ∀ p ∈ g, p.description ≠ "") : ∀ acc : List String,
    g.foldl (fun acc p =>
        if p.description ≠ "" ∧ p.description ∉ acc then acc ++ [p.description] else acc) acc
      = (g.map (·.description)).foldl distinctAppend acc := by
  induction g with
  | nil => intro acc; rfl
  | cons p t ih =>
    intro acc
    rw [List.foldl_cons, List.map_cons, List.foldl_cons]
    have hd : p.description ≠ "" := h p (List.mem_cons_self p t)
    have hstep : (if p.description ≠ "" ∧ p.description ∉ acc
        then acc ++ [p.description] else acc) = distinctAppend acc p.description := by
      unfold distinctAppend
      by_cases hmem : p.description ∈ acc
      · rw [if_neg (by tauto), if_pos hmem]
      · rw [if_pos ⟨hd, hmem⟩, if_neg hmem]
    rw [hstep]
    exact ih (fun q hq => h q (List.mem_cons_of_mem p hq)) (distinctAppend acc p.description)

/-- A group selected by a key that occurs among the pattern names is
non-empty. -/
theorem filter_name_ne_nil (ps : List DesignPattern) (n : String)
    (hn : n ∈ firstSeen (ps.map (·.name))) :
    ps.filter (fun p => p.name = n) ≠ [] := by
  rw [mem_firstSeen, List.mem_map] at hn
  obtain ⟨p, hp, rfl⟩ := hn
  intro hcontra
  have hmem : p ∈ ps.filter (fun q => q.name = p.name) :=
    List.mem_filter.mpr ⟨hp, by simp⟩
  rw [hcontra] at hmem
  exact absurd hmem (List.not_mem_nil p)

/-- Each merged record keeps its group's key as its name. -/
theorem mergeGroup_name_eq (n : String) (ps : List DesignPattern)
    (hne : ps.filter (fun p => p.name = n) ≠ []) :
    (mergeGroup n (ps.filter fun p => p.name = n)).name = n := by
  cases hg : ps.filter (fun p => p.name = n) with
  | nil => exact absurd hg hne
  | cons p t =>
    cases t with
    | nil =>
      have hp : p ∈ ps.filter (fun p => p.name = n) := hg ▸ List.mem_cons_self p []
      have hpn := (List.mem_filter.mp hp).2
      simpa [mergeGroup] using of_decide_eq_true hpn
    | cons q t2 => rfl

/-! ## Theorem for claim C1 -/

/-- Claim C1: deduplication groups records by exact name (one output record
per distinct name, in first-seen order); a group of size 1 is kept
unchanged; a group of size > 1 is merged into one record whose files are
the union of the group's files, whose confidence is the group's maximum
(given the data model's non-negative confidences, since the fold starts at
0.0), and whose description is the longest of the group's distinct
descriptions with ties broken by first appearance (given non-empty
descriptions, since empty ones are dropped by the accumulator). -/
theorem deduplicate_patterns_spec (ps : List DesignPattern)
    (h : ∀ p ∈ ps, 0 ≤ p.confidence ∧ p.description ≠ "") :
    ((deduplicate_patterns ps).map (·.name) = firstSeen (ps.map (·.name))) ∧
      (firstSeen (ps.map (·.name))).Nodup ∧
      ∀ r ∈ deduplicate_patterns ps,
        ((ps.filter fun p => p.name = r.name).length = 1 →
          ps.filter (fun p => p.name = r.name) = [r]) ∧
        (1 < (ps.filter fun p => p.name = r.name).length →
          r.files.toFinset =
            ((ps.filter fun p => p.name = r.name).map (·.files)).foldr
              (fun fs a => fs.toFinset ∪ a) ∅ ∧
          (∃ p ∈ ps.filter (fun p => p.name = r.name), r.confidence = p.confidence ∧
            ∀ q ∈ ps.filter (fun p => p.name = r.name), q.confidence ≤ p.confidence) ∧
          r.description =
            longestDistinctDescription
              ((ps.filter fun p => p.name = r.name).map (·.description))) := by
  refine ⟨?_, firstSeen_nodup _, ?_⟩
  · unfold deduplicate_patterns
    rw [List.map_map]
    conv_rhs => rw [← List.map_id (firstSeen (ps.map (·.name)))]
    apply List.map_congr_left
    intro n hn
    exact mergeGroup_name_eq n ps (filter_name_ne_nil ps n hn)
  · intro r hr
    unfold deduplicate_patterns at hr
    rw [List.mem_map] at hr
    obtain ⟨n, hn, rfl⟩ := hr
    have hname := mergeGroup_name_eq n ps (filter_name_ne_nil ps n hn)
    rw [hname]
    constructor
    · intro hlen1
      cases hg : ps.filter (fun p => p.name = n) with
      | nil => rw [hg] at hlen1; simp at hlen1
      | cons p t =>
        cases t with
        | nil => rfl
        | cons q t2 => rw [hg] at hlen1; simp at hlen1
    · intro hlen2
      cases hg : ps.filter (fun p => p.name = n) with
      | nil => rw [hg] at hlen2; simp at hlen2
      | cons p t =>
        cases t with
        | nil => rw [hg] at hlen2; simp at hlen2
        | cons q t2 =>
          have hsub : ∀ x ∈ p :: q :: t2, x ∈ ps := by
            intro x hx
            have : x ∈ ps.filter (fun p => p.name = n) := hg ▸ hx
            exact (List.mem_filter.mp this).1
          have hmerge : mergeGroup n (p :: q :: t2) =
              { name := n
                files := (p :: q :: t2).foldl (fun acc p => p.files.foldl distinctAppend acc) []
                confidence := (p :: q :: t2).foldl (fun m p => max m p.confidence) 0
                description :=
                  match (p :: q :: t2).foldl
                    (fun acc p => if p.description ≠ "" ∧ p.description ∉ acc
                      then acc ++ [p.description] else acc) [] with
                  | [] => "No description provided"
                  | d :: rest =>
                    rest.foldl (fun best x => if best.length < x.length then x else best) d } := rfl
          rw [hmerge]
          refine ⟨?_, ?_, ?_⟩
          · rw [toFinset_filesFold]
            simp
          · have hconfFold : (p :: q :: t2).foldl (fun m p => max m p.confidence) 0
                = ((p :: q :: t2).map (·.confidence)).foldl max 0 := by
              rw [List.foldl_map]
            obtain ⟨x, hxmem, hxeq, hxbound⟩ :=
              exists_foldl_max_zero ((p :: q :: t2).map (·.confidence)) (by simp)
                (by
                  intro x hx
                  rw [List.mem_map] at hx
                  obtain ⟨p2, hp2, rfl⟩ := hx
                  exact (h p2 (hsub p2 hp2)).1)
            rw [List.mem_map] at hxmem
            obtain ⟨p2, hp2, rfl⟩ := hxmem
            refine ⟨p2, hp2, by rw [hconfFold, hxeq], ?_⟩
            intro q2 hq2
            exact hxbound q2.confidence (List.mem_map_of_mem (·.confidence) hq2)
          · rw [descFold_eq_firstSeen _
              (fun p2 hp2 => (h p2 (hsub p2 hp2)).2)]
            rfl

/-- Witness for C1: the claim's own "Singleton" example — records with
files {A}/{B}, confidences 0.6/0.8 — merge into one record with
files = {A, B} and confidence 0.8 (and the longer description). -/
theorem deduplicate_patterns_spec_witness :
    (∀ p ∈ psC1, 0 ≤ p.confidence ∧ p.description ≠ "") ∧
      (deduplicate_patterns psC1).map (·.name) = firstSeen (psC1.map (·.name)) ∧
      deduplicate_patterns psC1 =
        [⟨"Singleton", ["A", "B"], mkRat 4 5, "The Singleton description"⟩] :=
  ⟨by decide, (deduplicate_patterns_spec psC1 (by decide)).1, by decide⟩

/-! ## Theorems for claim C6 -/

/-- Claim C6 counterexample: a scanned condition with 6 logical operators is
flagged, but the emitted finding's severity is the registry's fixed
"medium"; the high/medium level the claim describes is computed into the
source's `complexity` local (here `condComplexityLevel`, which is "high" for
this input) and then discarded. -/
theorem complex_conditional_severity_counterexample :
    condSmellOpt "a and b and c and d and e and f and g" 1 =
      some ⟨"complex_conditional", "Overly complex conditional expression", "medium", "Line 1",
        "Complex conditional with 6 logical operators and 0 parentheses groupings. Consider extracting conditions to helper methods."⟩ ∧
      condComplexityLevel "a and b and c and d and e and f and g" = "high" ∧
      "medium" ≠ "high" :=
  ⟨by decide, by decide, by decide⟩

/-- Claim C6 (amended): a scanned conditional is flagged exactly when its
parenthesis counts balance and (operator count > 3 or parenthesis groups
> 2); every emitted finding carries severity "medium" — the "high" level of
the claim is computed by the code into an unused local and dropped. -/
theorem complex_conditional_amended (rawCond : String) (lineNum : ℕ) :
    (condSmellOpt rawCond lineNum ≠ none ↔
      (condOpenParen (pyStrip rawCond.toList) = condCloseParen (pyStrip rawCond.toList) ∧
        (3 < condOpCount (pyStrip rawCond.toList) ∨
          2 < condOpenParen (pyStrip rawCond.toList)))) ∧
    (condSmellOpt rawCond lineNum).all (fun s => s.severity == "medium") = true := by
  simp only [condSmellOpt, condCheck]
  split_ifs with hp hf
  · refine ⟨⟨fun hcontr => absurd rfl hcontr, ?_⟩, rfl⟩
    rintro ⟨he, _⟩
    exact absurd he hp
  · exact ⟨⟨fun _ => ⟨not_ne_iff.mp hp, hf⟩, fun _ => by simp⟩, rfl⟩
  · refine ⟨⟨fun hcontr => absurd rfl hcontr, ?_⟩, rfl⟩
    rintro ⟨_, hflag⟩
    exact absurd hflag hf

end VibeDoc
